import Mathlib

/-!
Shallow embedding of the bevy_qcmd drop-down console (src/src/lib.rs).

Modelling choices:
* Rust `String` / `str` / `Cow` text is modelled as `List Char`.
* Bevy `SystemId` callback handles are opaque; we model them as `Nat`.
* `HashMap<Cow, SystemId>` (the `CommandMap` resource) is modelled as an
  association list `List (List Char × Nat)`; its iteration order stands
  for the hash map's unspecified iteration order.
* `f32` UI coordinates are modelled as `ℚ` (exact arithmetic).
* Each bevy system becomes a pure function from the resources and
  components it reads to the values it writes.
-/

/-- The `ConsoleState` bevy state enum (lib.rs lines 15-22). -/
inductive ConsoleState where
  | Closed
  | AnimatingOpen
  | AnimatingClosed
  | Open
deriving DecidableEq, Repr

/-- The `CmdTrigger` bevy state enum (lib.rs lines 24-29). -/
inductive CmdTrigger where
  | Ready
  | Fired
deriving DecidableEq, Repr

/-- The `CommandMap` resource: `HashMap<Cow<str>, SystemId>` modelled as an
association list (lib.rs line 147). -/
abbrev CommandMap : Type := List (List Char × Nat)

/-- `HashMap::get` on the modelled map: first binding of the key wins. -/
def lookupCmd : CommandMap → List Char → Option Nat
  | [], _ => none
  | (k, v) :: rest, name => if k = name then some v else lookupCmd rest name

/-- `HashMap::insert` on the modelled map: replaces the binding for the key
in place and returns the previous value (`None` if the key was absent). -/
def insertCmd : CommandMap → List Char → Nat → CommandMap × Option Nat
  | [], name, id => ([(name, id)], none)
  | (k, v) :: rest, name, id =>
    if k = name then ((name, id) :: rest, some v)
    else
      let r := insertCmd rest name id
      ((k, v) :: r.1, r.2)

/-- `ConsolePlugin::add_cmd` (lib.rs lines 166-173): registers the system
(whose fresh `SystemId` we take as given) under `name` in the `CommandMap`
via `HashMap::insert`, returning the insert result. -/
def add_cmd (map : CommandMap) (name : List Char) (id : Nat) :
    CommandMap × Option Nat :=
  insertCmd map name id

/-- Rust `str::split(' ')` (an iterator over the pieces between spaces;
on any input, including the empty string, it yields at least one piece). -/
def split_space : List Char → List (List Char)
  | [] => [[]]
  | c :: rest =>
    if c = ' ' then [] :: split_space rest
    else
      match split_space rest with
      | t :: ts => (c :: t) :: ts
      | [] => [[c]]

/-- The piece of the command line before the first space. -/
def first_token (cmd : List Char) : List Char :=
  cmd.takeWhile (fun c => !(c == ' '))

/-- What the dispatcher writes: the new transcript text of the output region,
and the `SystemId` passed to `Commands::run_system`, if any. -/
structure RunCmdResult where
  output : List Char
  invoked : Option Nat
deriving DecidableEq, Repr

/-- The command-dispatch system (lib.rs lines 129-140): takes the first piece of
`CommandArgs` as the command token, looks it up in the `CommandMap`; on a
hit runs the stored system, on a miss appends a not-found line to the
output transcript. -/
def runCmd (cmd : List Char) (map : CommandMap) (out : List Char) :
    RunCmdResult :=
  match (split_space cmd).head? with
  | some call =>
    match lookupCmd map call with
    | some id => ⟨out, some id⟩
    | none => ⟨out ++ "Command not found: ".data ++ call ++ ['\n'], none⟩
  | none => ⟨out, none⟩

/-- `MOVE_SPEED` (lib.rs line 32), in percent per second. -/
def MOVE_SPEED : ℚ := 100

/-- The `top: Val::Percent(-33.3)` initial panel offset set by `setup_ui`
(lib.rs line 63). -/
def initial_top : ℚ := -(333 / 10)

/-- What `move_console` writes: the panel's new `top` offset (percent), the
`NextState(ConsoleState)` resource it inserts (if any), and whether it
cleared the buffered `ReceivedCharacter` events. -/
structure MoveResult where
  top : ℚ
  next : Option ConsoleState
  clearedEvents : Bool
deriving DecidableEq, Repr

/-- The per-frame offset change applied by `move_console`
(lib.rs lines 35-39), as a function of the console state. -/
def move_delta (dt : ℚ) : ConsoleState → ℚ
  | ConsoleState.AnimatingOpen => MOVE_SPEED * dt
  | ConsoleState.AnimatingClosed => -MOVE_SPEED * dt
  | ConsoleState.Closed => 0
  | ConsoleState.Open => 0

/-- The `move_console` system (lib.rs lines 31-54): advances the panel's
`top` offset by `MOVE_SPEED * dt` toward the target of the current
animation state, then clamps at the bound and transitions to the terminal
state when the bound is reached or passed; the catch-all match arms of the
source are spelled out per constructor. -/
def move_console (dt top : ℚ) (state : ConsoleState) : MoveResult :=
  let pos := top + move_delta dt state
  match state with
  | ConsoleState.AnimatingClosed =>
    if pos ≤ -(333 / 10) then ⟨-(333 / 10), some ConsoleState.Closed, false⟩
    else ⟨pos, none, false⟩
  | ConsoleState.AnimatingOpen =>
    if 0 ≤ pos then ⟨0, some ConsoleState.Open, true⟩
    else ⟨pos, none, false⟩
  | ConsoleState.Closed => ⟨pos, none, false⟩
  | ConsoleState.Open => ⟨pos, none, false⟩

/-- Runs `move_console` over a sequence of frames, each frame supplying its
elapsed time and the console state it runs in, threading the `top` offset. -/
def runFrames : List (ℚ × ConsoleState) → ℚ → ℚ
  | [], top => top
  | f :: rest, top => runFrames rest (move_console f.1 top f.2).top

/-- The effect on `ConsoleState` of a backquote press, as wired by
`ConsolePlugin::build` (lib.rs lines 194-195): `next_state(AnimatingOpen)`
runs only in `Closed`, `next_state(AnimatingClosed)` runs only in `Open`,
and no other registered system changes the state on that press. -/
def toggle_console : ConsoleState → ConsoleState
  | ConsoleState.Closed => ConsoleState.AnimatingOpen
  | ConsoleState.Open => ConsoleState.AnimatingClosed
  | s => s

/-- Rust `char::is_control`: the Unicode Cc category,
`U+0000..U+001F` and `U+007F..U+009F`. -/
def is_control (c : Char) : Bool :=
  c.toNat < 32 || (127 ≤ c.toNat && c.toNat ≤ 159)

/-- Rust `str::starts_with`: `starts_with s p` holds when `p` is a prefix
of `s`. -/
def starts_with : List Char → List Char → Bool
  | _, [] => true
  | [], _ :: _ => false
  | c :: cs, p :: ps => c == p && starts_with cs ps

/-- The `just_pressed` keyboard queries `text_input` makes in one frame. -/
structure KbdInput where
  enter : Bool
  backspace : Bool
  tab : Bool
  backquote : Bool
deriving DecidableEq, Repr

/-- What `text_input` writes: the input region's live buffer
(`sections[1].value`), the output transcript (`sections[0].value`), the
`CommandArgs` resource it inserts (if any), and the `NextState(CmdTrigger)`
resource it inserts (if any). -/
structure TextInputResult where
  input : List Char
  output : List Char
  commandArgs : Option (List Char)
  nextTrigger : Option CmdTrigger
deriving DecidableEq, Repr

/-- The `text_input` system (lib.rs lines 82-127). `evr_char` is the
frame's buffered `ReceivedCharacter` events, each carrying a small string
of characters. Branch priority: Enter, then Backspace, then Tab, then the
character drain (skipped when Backquote was just pressed). -/
def text_input (kbd : KbdInput) (evr_char : List (List Char))
    (map : CommandMap) (inp out : List Char) : TextInputResult :=
  if kbd.enter then
    ⟨[], out ++ inp ++ ['\n'], some inp, some CmdTrigger.Fired⟩
  else if kbd.backspace then
    ⟨inp.dropLast, out, none, none⟩
  else if kbd.tab then
    let r := map.foldl
      (fun (acc : List Char × Bool) kv =>
        if starts_with kv.1 inp then (acc.1 ++ kv.1 ++ [' '], true) else acc)
      (out, false)
    ⟨inp,
     if r.2 then r.1 ++ ['\n']
     else r.1 ++ "No commands start with that.\n".data,
     none, none⟩
  else if !kbd.backquote then
    ⟨evr_char.foldl
      (fun a ev =>
        ev.foldl (fun b c => if is_control c then b else b ++ [c]) a)
      inp,
     out, none, none⟩
  else
    ⟨inp, out, none, none⟩

/-- A `KbdInput` with none of the four special keys just pressed. -/
def no_keys : KbdInput := ⟨false, false, false, false⟩

/-- Runs `text_input` over a sequence of frames in which no special key is
pressed, each frame supplying its buffered character events, threading the
input buffer and transcript; returns the final input buffer. -/
def run_char_frames (map : CommandMap) :
    List (List (List Char)) → List Char → List Char → List Char
  | [], inp, _ => inp
  | evs :: rest, inp, out =>
    let r := text_input no_keys evs map inp out
    run_char_frames map rest r.input r.output

/-! ## Helper lemmas -/

theorem split_space_ne_nil (l : List Char) : split_space l ≠ [] := by
  cases l with
  | nil => simp [split_space]
  | cons c rest =>
    simp only [split_space]
    split
    · simp
    · split <;> simp

theorem head_split_space (l : List Char) :
    (split_space l).head? = some (first_token l) := by
  induction l with
  | nil => rfl
  | cons c rest ih =>
    cases h : split_space rest with
    | nil => exact absurd h (split_space_ne_nil rest)
    | cons t ts =>
      rw [h] at ih
      simp only [List.head?, Option.some.injEq] at ih
      by_cases hc : c = ' '
      · subst hc
        simp [split_space, first_token, List.takeWhile]
      · have hb : (c == ' ') = false := by
          simp [hc]
        simp [split_space, hc, h, first_token, List.takeWhile, ih, hb]

theorem tab_foldl (inp : List Char) (m : CommandMap) :
    ∀ (out : List Char) (b : Bool),
      m.foldl
        (fun (acc : List Char × Bool) kv =>
          if starts_with kv.1 inp then (acc.1 ++ kv.1 ++ [' '], true) else acc)
        (out, b)
      = (out ++ (((m.map Prod.fst).filter (fun k => starts_with k inp)).map
            (fun k => k ++ [' '])).flatten,
         b || (m.map Prod.fst).any (fun k => starts_with k inp)) := by
  induction m with
  | nil => intro out b; simp
  | cons kv rest ih =>
    intro out b
    cases hk : starts_with kv.1 inp with
    | true =>
      have hstep :
          (if starts_with kv.1 inp
           then (((out, b) : List Char × Bool).1 ++ kv.1 ++ [' '], true)
           else (out, b))
          = ((out ++ kv.1 ++ [' '], true) : List Char × Bool) := by
        simp [hk]
      rw [List.foldl_cons, hstep, ih]
      simp [List.filter_cons, hk, List.append_assoc]
    | false =>
      have hstep :
          (if starts_with kv.1 inp
           then (((out, b) : List Char × Bool).1 ++ kv.1 ++ [' '], true)
           else (out, b))
          = ((out, b) : List Char × Bool) := by
        simp [hk]
      rw [List.foldl_cons, hstep, ih]
      simp [List.filter_cons, hk]

theorem drain_chars (chars : List Char) :
    ∀ a : List Char,
      chars.foldl (fun b c => if is_control c then b else b ++ [c]) a
        = a ++ chars.filter (fun c => !(is_control c)) := by
  induction chars with
  | nil => intro a; simp
  | cons c cs ih =>
    intro a
    cases hc : is_control c with
    | true =>
      have hstep : (if is_control c then a else a ++ [c]) = a := by
        simp [hc]
      rw [List.foldl_cons, hstep, ih]
      simp [List.filter_cons, hc]
    | false =>
      have hstep : (if is_control c then a else a ++ [c]) = a ++ [c] := by
        simp [hc]
      rw [List.foldl_cons, hstep, ih]
      simp [List.filter_cons, hc, List.append_assoc]

theorem drain_events (evs : List (List Char)) :
    ∀ a : List Char,
      evs.foldl
        (fun a ev =>
          ev.foldl (fun b c => if is_control c then b else b ++ [c]) a) a
        = a ++ evs.flatten.filter (fun c => !(is_control c)) := by
  induction evs with
  | nil => intro a; simp
  | cons e es ih =>
    intro a
    rw [List.foldl_cons, drain_chars, ih]
    simp [List.filter_append, List.append_assoc]

theorem run_char_frames_eq (map : CommandMap)
    (frames : List (List (List Char))) :
    ∀ inp out,
      run_char_frames map frames inp out
        = inp ++ frames.flatten.flatten.filter (fun c => !(is_control c)) := by
  induction frames with
  | nil => intro inp out; simp [run_char_frames]
  | cons evs rest ih =>
    intro inp out
    have hstep : text_input no_keys evs map inp out
        = ⟨inp ++ evs.flatten.filter (fun c => !(is_control c)), out,
           none, none⟩ := by
      simp [text_input, no_keys, drain_events]
    simp [run_char_frames, hstep, ih, List.filter_append, List.append_assoc]

theorem move_console_bounds (dt top : ℚ) (s : ConsoleState) (hdt : 0 ≤ dt)
    (h1 : -(333 / 10) ≤ top) (h2 : top ≤ 0) :
    -(333 / 10) ≤ (move_console dt top s).top ∧
      (move_console dt top s).top ≤ 0 := by
  have hspeed : 0 ≤ MOVE_SPEED * dt := by
    have h100 : (0 : ℚ) ≤ 100 := by norm_num
    simpa [MOVE_SPEED] using mul_nonneg h100 hdt
  cases s with
  | Closed =>
    constructor
    · show -(333 / 10) ≤ top + 0
      linarith
    · show top + 0 ≤ 0
      linarith
  | Open =>
    constructor
    · show -(333 / 10) ≤ top + 0
      linarith
    · show top + 0 ≤ 0
      linarith
  | AnimatingOpen =>
    simp only [move_console, move_delta]
    split_ifs with h
    · exact ⟨by norm_num, by norm_num⟩
    · constructor
      · show -(333 / 10) ≤ top + MOVE_SPEED * dt
        linarith
      · show top + MOVE_SPEED * dt ≤ 0
        linarith
  | AnimatingClosed =>
    simp only [move_console, move_delta]
    split_ifs with h
    · exact ⟨by norm_num, by norm_num⟩
    · constructor
      · show -(333 / 10) ≤ top + -MOVE_SPEED * dt
        linarith
      · show top + -MOVE_SPEED * dt ≤ 0
        linarith

theorem runFrames_bounds (frames : List (ℚ × ConsoleState)) :
    ∀ top, (∀ f ∈ frames, 0 ≤ f.1) → -(333 / 10) ≤ top → top ≤ 0 →
      -(333 / 10) ≤ runFrames frames top ∧ runFrames frames top ≤ 0 := by
  induction frames with
  | nil => intro top _ h1 h2; exact ⟨h1, h2⟩
  | cons f rest ih =>
    intro top h h1 h2
    have hf : 0 ≤ f.1 := h f (by simp)
    obtain ⟨b1, b2⟩ := move_console_bounds f.1 top f.2 hf h1 h2
    exact ih _ (fun g hg => h g (by simp [hg])) b1 b2

theorem first_token_all_space (s : List Char) (h : ∀ c ∈ s, c = ' ') :
    first_token s = [] := by
  cases s with
  | nil => rfl
  | cons c cs =>
    have hc : c = ' ' := h c (by simp)
    subst hc
    simp [first_token, List.takeWhile]

/-! ## Claim theorems -/

/-- Claim C1: on a Fired trigger the dispatcher splits the pending command
text on the first space to get the token and looks it up in the registry;
a registered token invokes its callback with no not-found line, an
unregistered token appends `Command not found: <token>\n` to the
transcript with no callback invoked. -/
theorem C1_dispatch_lookup (cmd : List Char) (map : CommandMap)
    (out : List Char) :
    (∀ id, lookupCmd map (first_token cmd) = some id →
       runCmd cmd map out = ⟨out, some id⟩) ∧
    (lookupCmd map (first_token cmd) = none →
       runCmd cmd map out
         = ⟨out ++ "Command not found: ".data ++ first_token cmd ++ ['\n'],
            none⟩) := by
  have h := head_split_space cmd
  constructor
  · intro id hid
    simp [runCmd, h, hid]
  · intro hnone
    simp [runCmd, h, hnone]

theorem C1_dispatch_lookup_witness :
    lookupCmd [("help".data, 5)] (first_token "foo".data) = none ∧
    runCmd "foo".data [("help".data, 5)] []
      = ⟨[] ++ "Command not found: ".data ++ first_token "foo".data ++ ['\n'],
         none⟩ ∧
    lookupCmd [("help".data, 5)] (first_token "help me".data) = some 5 ∧
    runCmd "help me".data [("help".data, 5)] "x".data
      = ⟨"x".data, some 5⟩ := by
  refine ⟨by decide, ?_, by decide, ?_⟩
  · exact (C1_dispatch_lookup "foo".data [("help".data, 5)] []).2 (by decide)
  · exact (C1_dispatch_lookup "help me".data [("help".data, 5)] "x".data).1
      5 (by decide)

/-- Claim C2: in an animating state the step adds `MOVE_SPEED * dt` to the
offset, signed toward the target; an offset reaching or passing the bound
is set exactly to the bound with a transition to the terminal state; in
particular a 0.2 s step from `AnimatingClosed` at offset -10 lands on -30
with no transition. -/
theorem C2_animation_step (dt top : ℚ) :
    (0 ≤ top + MOVE_SPEED * dt →
       move_console dt top ConsoleState.AnimatingOpen
         = ⟨0, some ConsoleState.Open, true⟩) ∧
    (top + MOVE_SPEED * dt < 0 →
       move_console dt top ConsoleState.AnimatingOpen
         = ⟨top + MOVE_SPEED * dt, none, false⟩) ∧
    (top + -MOVE_SPEED * dt ≤ -(333 / 10) →
       move_console dt top ConsoleState.AnimatingClosed
         = ⟨-(333 / 10), some ConsoleState.Closed, false⟩) ∧
    (-(333 / 10) < top + -MOVE_SPEED * dt →
       move_console dt top ConsoleState.AnimatingClosed
         = ⟨top + -MOVE_SPEED * dt, none, false⟩) ∧
    move_console (2 / 10) (-10) ConsoleState.AnimatingClosed
      = ⟨-30, none, false⟩ := by
  refine ⟨?_, ?_, ?_, ?_, ?_⟩
  · intro h
    simp only [move_console, move_delta]
    rw [if_pos h]
  · intro h
    simp only [move_console, move_delta]
    rw [if_neg (by linarith)]
  · intro h
    simp only [move_console, move_delta]
    rw [if_pos h]
  · intro h
    simp only [move_console, move_delta]
    rw [if_neg (by linarith)]
  · simp only [move_console, move_delta, MOVE_SPEED]
    norm_num

theorem C2_animation_step_witness :
    (0 ≤ (-5 : ℚ) + MOVE_SPEED * 1 ∧
     move_console 1 (-5) ConsoleState.AnimatingOpen
       = ⟨0, some ConsoleState.Open, true⟩) ∧
    move_console (2 / 10) (-10) ConsoleState.AnimatingClosed
      = ⟨-30, none, false⟩ :=
  ⟨⟨by norm_num [MOVE_SPEED], (C2_animation_step 1 (-5)).1 (by norm_num [MOVE_SPEED])⟩,
   (C2_animation_step 1 (-5)).2.2.2.2⟩

/-- Claim C3: when Enter is just pressed (the console being Open is what
lets `text_input` run at all), the input buffer is taken and left empty,
its previous contents plus a newline are appended to the transcript, the
taken text is published as `CommandArgs`, and `NextState(CmdTrigger::Fired)`
is inserted. -/
theorem C3_enter_submission (kbd : KbdInput) (evts : List (List Char))
    (map : CommandMap) (inp out : List Char) (h : kbd.enter = true) :
    text_input kbd evts map inp out
      = ⟨[], out ++ inp ++ ['\n'], some inp, some CmdTrigger.Fired⟩ := by
  simp [text_input, h]

theorem C3_enter_submission_witness :
    text_input ⟨true, false, false, false⟩ [] [] "hi".data "o".data
      = ⟨[], "o".data ++ "hi".data ++ ['\n'], some "hi".data,
         some CmdTrigger.Fired⟩ :=
  C3_enter_submission ⟨true, false, false, false⟩ [] [] "hi".data "o".data
    rfl

/-- Claim C4: pressing Tab (with neither Enter nor Backspace pressed)
appends to the transcript each registered name having the input buffer as
a prefix, in registry order, each followed by a space and then a newline;
with no such name it appends exactly `No commands start with that.\n`; the
input buffer is unchanged either way. -/
theorem C4_tab_listing (kbd : KbdInput) (evts : List (List Char))
    (map : CommandMap) (inp out : List Char) (h1 : kbd.enter = false)
    (h2 : kbd.backspace = false) (h3 : kbd.tab = true) :
    (text_input kbd evts map inp out).input = inp ∧
    (text_input kbd evts map inp out).output
      = (if ((map.map Prod.fst).filter (fun k => starts_with k inp)) = []
         then out ++ "No commands start with that.\n".data
         else out ++ (((map.map Prod.fst).filter
                (fun k => starts_with k inp)).map
                  (fun k => k ++ [' '])).flatten ++ ['\n']) := by
  have hf := tab_foldl inp map out false
  constructor
  · simp [text_input, h1, h2, h3]
  · simp only [text_input, h1, h2, h3, Bool.false_eq_true, if_false,
      if_true, hf, Bool.false_or]
    by_cases hm : (map.map Prod.fst).any (fun k => starts_with k inp) = true
    · have hne : ((map.map Prod.fst).filter
          (fun k => starts_with k inp)) ≠ [] := by
        simp only [ne_eq, List.filter_eq_nil_iff]
        simp only [List.any_eq_true] at hm
        obtain ⟨k, hk, hks⟩ := hm
        intro hall
        exact absurd hks (by simpa using hall k hk)
      simp [hm, hne, List.append_assoc]
    · simp only [Bool.not_eq_true] at hm
      have hnil : ((map.map Prod.fst).filter
          (fun k => starts_with k inp)) = [] := by
        rw [List.filter_eq_nil_iff]
        intro k hk
        simp only [List.any_eq_false] at hm
        simpa using hm k hk
      simp [hm, hnil]

theorem C4_tab_listing_witness :
    ((text_input ⟨false, false, true, false⟩ []
        [("help".data, 1), ("hello".data, 2)] "he".data []).input
      = "he".data ∧
     (text_input ⟨false, false, true, false⟩ []
        [("help".data, 1), ("hello".data, 2)] "he".data []).output
      = "help hello \n".data) ∧
    (text_input ⟨false, false, true, false⟩ []
        [("help".data, 1), ("hello".data, 2)] "zz".data []).output
      = "No commands start with that.\n".data := by
  have h1 := C4_tab_listing ⟨false, false, true, false⟩ []
    [("help".data, 1), ("hello".data, 2)] "he".data [] rfl rfl rfl
  have h2 := C4_tab_listing ⟨false, false, true, false⟩ []
    [("help".data, 1), ("hello".data, 2)] "zz".data [] rfl rfl rfl
  refine ⟨⟨h1.1, ?_⟩, ?_⟩
  · rw [h1.2]
    decide
  · rw [h2.2]
    decide

/-- Claim C5: over frames in which none of Enter, Backspace, Tab or
Backquote is just pressed, the input buffer gains exactly the non-control
characters of the drained events in order, so control characters are never
appended; with no control characters in the stream the final buffer is the
initial buffer followed by all the characters. -/
theorem C5_char_concatenation (map : CommandMap)
    (frames : List (List (List Char))) (inp out : List Char) :
    run_char_frames map frames inp out
      = inp ++ frames.flatten.flatten.filter (fun c => !(is_control c)) ∧
    ((∀ c ∈ frames.flatten.flatten, is_control c = false) →
       run_char_frames map frames inp out = inp ++ frames.flatten.flatten) := by
  have h := run_char_frames_eq map frames inp out
  refine ⟨h, fun hc => ?_⟩
  rw [h, List.filter_eq_self.mpr ?_]
  intro c hcc
  simp [hc c hcc]

theorem C5_char_concatenation_witness :
    run_char_frames [] [[['a', 'b']], [['c']]] ['x'] []
      = ['x'] ++ ([[['a', 'b']], [['c']]] :
          List (List (List Char))).flatten.flatten :=
  (C5_char_concatenation [] [[['a', 'b']], [['c']]] ['x'] []).2 (by decide)

/-- Claim C6: a backquote press moves `Closed` to `AnimatingOpen` and
`Open` to `AnimatingClosed`, and leaves both animating states unchanged. -/
theorem C6_toggle_states :
    toggle_console ConsoleState.Closed = ConsoleState.AnimatingOpen ∧
    toggle_console ConsoleState.Open = ConsoleState.AnimatingClosed ∧
    toggle_console ConsoleState.AnimatingOpen = ConsoleState.AnimatingOpen ∧
    toggle_console ConsoleState.AnimatingClosed
      = ConsoleState.AnimatingClosed :=
  ⟨rfl, rfl, rfl, rfl⟩

/-- Claim C7: starting from the initial offset -33.3 set by `setup_ui`,
after any sequence of animation steps with non-negative frame times, in
any console states, the panel offset stays within [-33.3, 0]. -/
theorem C7_offset_invariant (frames : List (ℚ × ConsoleState))
    (h : ∀ f ∈ frames, 0 ≤ f.1) :
    -(333 / 10) ≤ runFrames frames initial_top ∧
      runFrames frames initial_top ≤ 0 :=
  runFrames_bounds frames initial_top h (le_of_eq rfl)
    (by norm_num [initial_top])

theorem C7_offset_invariant_witness :
    -(333 / 10)
        ≤ runFrames [((1 : ℚ) / 10, ConsoleState.AnimatingOpen)] initial_top ∧
      runFrames [((1 : ℚ) / 10, ConsoleState.AnimatingOpen)] initial_top
        ≤ 0 :=
  C7_offset_invariant [((1 : ℚ) / 10, ConsoleState.AnimatingOpen)]
    (by intro f hf; simp only [List.mem_singleton] at hf; rw [hf]; norm_num)

/-- Claim C8: provided the empty string is not a registered name,
submitting a buffer that is empty or consists only of spaces dispatches
with the empty token: lookup fails and the line `Command not found: \n`
(empty token) is appended, with no callback invoked. -/
theorem C8_empty_submission (s : List Char) (map : CommandMap)
    (out : List Char) (hs : ∀ c ∈ s, c = ' ')
    (hmap : lookupCmd map [] = none) :
    runCmd s map out
      = ⟨out ++ "Command not found: ".data ++ ['\n'], none⟩ := by
  have h1 : first_token s = [] := first_token_all_space s hs
  have h := head_split_space s
  rw [h1] at h
  simp [runCmd, h, hmap]

theorem C8_empty_submission_witness :
    (∀ c ∈ ([' ', ' '] : List Char), c = ' ') ∧
    lookupCmd [("help".data, 1)] [] = none ∧
    runCmd [' ', ' '] [("help".data, 1)] "o".data
      = ⟨"o".data ++ "Command not found: ".data ++ ['\n'], none⟩ :=
  ⟨by decide, by decide,
   C8_empty_submission [' ', ' '] [("help".data, 1)] "o".data (by decide)
     (by decide)⟩

/-- Claim C9: `add_cmd` registers the handle under the name, replacing any
existing entry; it returns the previously stored handle exactly when the
name was already registered, and leaves every other name's entry
unchanged. -/
theorem C9_add_cmd_registry (map : CommandMap) (name : List Char)
    (id : Nat) :
    lookupCmd (add_cmd map name id).1 name = some id ∧
    (add_cmd map name id).2 = lookupCmd map name ∧
    ∀ k, k ≠ name →
      lookupCmd (add_cmd map name id).1 k = lookupCmd map k := by
  induction map with
  | nil =>
    refine ⟨by simp [add_cmd, insertCmd, lookupCmd], by
      simp [add_cmd, insertCmd, lookupCmd], ?_⟩
    intro k hk
    have hk2 : ¬ name = k := fun h => hk (Eq.symm h)
    simp [add_cmd, insertCmd, lookupCmd, hk2]
  | cons kv rest ih =>
    obtain ⟨k0, v0⟩ := kv
    by_cases hk0 : k0 = name
    · subst hk0
      refine ⟨by simp [add_cmd, insertCmd, lookupCmd], by
        simp [add_cmd, insertCmd, lookupCmd], ?_⟩
      intro k hk
      have hk2 : ¬ k0 = k := fun h => hk (Eq.symm h)
      simp [add_cmd, insertCmd, lookupCmd, hk2]
    · obtain ⟨ih1, ih2, ih3⟩ := ih
      refine ⟨?_, ?_, ?_⟩
      · simpa [add_cmd, insertCmd, lookupCmd, hk0] using ih1
      · simpa [add_cmd, insertCmd, lookupCmd, hk0] using ih2
      · intro k hk
        by_cases hkk : k0 = k
        · subst hkk
          simp [add_cmd, insertCmd, lookupCmd, hk0]
        · have := ih3 k hk
          simpa [add_cmd, insertCmd, lookupCmd, hk0, hkk] using this

theorem C9_add_cmd_registry_witness :
    lookupCmd (add_cmd [("help".data, 1)] "help".data 2).1 "help".data
      = some 2 ∧
    (add_cmd [("help".data, 1)] "help".data 2).2
      = lookupCmd [("help".data, 1)] "help".data ∧
    ("run".data ≠ "help".data ∧
     lookupCmd (add_cmd [("help".data, 1)] "help".data 2).1 "run".data
       = lookupCmd [("help".data, 1)] "run".data) :=
  ⟨(C9_add_cmd_registry [("help".data, 1)] "help".data 2).1,
   (C9_add_cmd_registry [("help".data, 1)] "help".data 2).2.1,
   by decide,
   (C9_add_cmd_registry [("help".data, 1)] "help".data 2).2.2 "run".data
     (by decide)⟩

/-- Claim C10: splitting any pending command text on space always yields a
first token, so the dispatcher's no-token branch is unreachable and every
dispatch either invokes a registered callback (leaving the transcript
unchanged) or appends a not-found line. -/
theorem C10_token_always_exists (cmd : List Char) (map : CommandMap)
    (out : List Char) :
    ((split_space cmd).head?).isSome = true ∧
    ((∃ id, runCmd cmd map out = ⟨out, some id⟩) ∨
     runCmd cmd map out
       = ⟨out ++ "Command not found: ".data ++ first_token cmd ++ ['\n'],
          none⟩) := by
  have h := head_split_space cmd
  refine ⟨by simp [h], ?_⟩
  cases hl : lookupCmd map (first_token cmd) with
  | some id =>
    left
    exact ⟨id, by simp [runCmd, h, hl]⟩
  | none =>
    right
    simp [runCmd, h, hl]
